import Mathlib

/-!
Verification of floem's `src/id.rs`: view identifiers, the ancestry-path
registry, and the update-message queues.

The embedding is shallow and purely functional. The two thread-local globals
(`ID_PATHS` and the update-message queues) together with the static
`WIDGET_ID_COUNTER` are made explicit state, and every operation of `impl Id`
becomes a function from that state to a (result, state) pair. An `Id` wraps a
`u64`, modeled as a natural number kept below `2 ^ 64`: the counter starts at
`0` and `fetch_add(1)` stores the incremented value reduced modulo `2 ^ 64`
(atomic `fetch_add` wraps around on overflow) while returning the previous
stored value. A Rust `panic` (the `unwrap` in `set_parent`) is modeled by
returning `none`.
-/

namespace Floem

/-- Registry state: the `WIDGET_ID_COUNTER` static (a `u64`: every stored
value is produced modulo `2 ^ 64`, see `Id.next`) and the `ID_PATHS`
thread-local map from each id (the wrapped `u64`) to its `IdPath`, a
root-first list of ids. A map entry `none` means the key is absent from the
`HashMap`. -/
structure RegState where
  counter : Nat
  id_paths : Nat → Option (List Nat)

/-- The initial registry: counter at `0` (the `AtomicU64::new(0)` initializer)
and an empty `ID_PATHS` map. -/
def RegState.initial : RegState :=
  { counter := 0, id_paths := fun _ => none }

/-- `HashMap::insert`: point update of the map. -/
def insertPath (m : Nat → Option (List Nat)) (k : Nat) (p : List Nat) :
    Nat → Option (List Nat) :=
  fun x => if x = k then some p else m x

namespace Id

/-- Translation of `Id::next`: `WIDGET_ID_COUNTER.fetch_add(1)` returns the
previous counter value and stores the incremented value; the addition is the
wrapping `u64` increment of `AtomicU64::fetch_add`, so the stored value is
reduced modulo `2 ^ 64`. -/
def next (s : RegState) : Nat × RegState :=
  (s.counter, { s with counter := (s.counter + 1) % 2 ^ 64 })

/-- Translation of `Id::new` (the derive-child operation): look up `self`'s
path (`unwrap_or_default` gives `[]` when absent); if it is empty, reuse
`self` as the new id, otherwise allocate via `next`; then push the new id
onto the path and insert the extended path under the new id's key. -/
def new (self : Nat) (s : RegState) : Nat × RegState :=
  let id_path := (s.id_paths self).getD []
  let alloc := if id_path.isEmpty then (self, s) else next s
  (alloc.1,
    { alloc.2 with
      id_paths := insertPath alloc.2.id_paths alloc.1 (id_path ++ [alloc.1]) })

/-- Translation of `Id::set_parent`: read `parent`'s path and `unwrap` it
(the panic on a missing parent entry is modeled as `none`), push `self`,
and insert the result under `self`'s key. -/
def set_parent (self par : Nat) (s : RegState) : Option RegState :=
  match s.id_paths par with
  | none => none
  | some id_path =>
      some { s with id_paths := insertPath s.id_paths self (id_path ++ [self]) }

/-- Translation of `Id::parent`: the element at index `len - 2` of the
registered path when `len >= 2`, otherwise `none`. -/
def parent (self : Nat) (s : RegState) : Option Nat :=
  (s.id_paths self).bind fun id_path =>
    if 2 ≤ id_path.length then id_path.get? (id_path.length - 2) else none

/-- Translation of `Id::id_path`: direct map lookup. -/
def id_path (self : Nat) (s : RegState) : Option (List Nat) :=
  s.id_paths self

/-- Translation of `Id::has_id_path`: `contains_key`. -/
def has_id_path (self : Nat) (s : RegState) : Bool :=
  (s.id_paths self).isSome

/-- Translation of `Id::remove_id_path`: `HashMap::remove` of `self`'s key. -/
def remove_id_path (self : Nat) (s : RegState) : RegState :=
  { s with id_paths := fun k => if k = self then none else s.id_paths k }

/-- Translation of `Id::root_id`: the first element of the registered path. -/
def root_id (self : Nat) (s : RegState) : Option Nat :=
  (s.id_paths self).bind fun p => p.head?

end Id

/-- A sequence of `n` calls to `Id::next`, returning the allocated values in
call order together with the final state. -/
def allocSeq : Nat → RegState → List Nat × RegState
  | 0, s => ([], s)
  | n + 1, s =>
      let r := Id.next s
      let rest := allocSeq n r.2
      (r.1 :: rest.1, rest.2)

@[simp] theorem insertPath_same (m : Nat → Option (List Nat)) (k : Nat)
    (p : List Nat) : insertPath m k p k = some p := by
  simp [insertPath]

theorem insertPath_other (m : Nat → Option (List Nat)) (k x : Nat)
    (p : List Nat) (h : x ≠ k) : insertPath m k p x = m x := by
  simp [insertPath, h]

/-- General description of `n` sequential allocations from any stored
counter value (stored values are below `2 ^ 64`): the value returned by the
`i`-th call is `(counter + i) % 2 ^ 64`, and the registry map is never
touched. -/
theorem allocSeq_values (n : Nat) (s : RegState) (hc : s.counter < 2 ^ 64) :
    (allocSeq n s).1 =
        (List.range n).map (fun i => (s.counter + i) % 2 ^ 64) ∧
      (allocSeq n s).2.counter = (s.counter + n) % 2 ^ 64 ∧
      (allocSeq n s).2.id_paths = s.id_paths := by
  induction n generalizing s with
  | zero =>
      refine ⟨by simp [allocSeq], ?_, rfl⟩
      show s.counter = (s.counter + 0) % 2 ^ 64
      rw [Nat.add_zero, Nat.mod_eq_of_lt hc]
  | succ n ih =>
      have hc' : (s.counter + 1) % 2 ^ 64 < 2 ^ 64 := Nat.mod_lt _ (by norm_num)
      obtain ⟨h1, h2, h3⟩ := ih { s with counter := (s.counter + 1) % 2 ^ 64 }
        hc'
      have hnext : (Id.next s).2 = { s with counter := (s.counter + 1) % 2 ^ 64 } :=
        rfl
      refine ⟨?_, ?_, ?_⟩
      · show (Id.next s).1 :: (allocSeq n (Id.next s).2).1 = _
        rw [hnext, h1, List.range_succ_eq_map, List.map_cons, List.map_map]
        congr 1
        · show s.counter = (s.counter + 0) % 2 ^ 64
          rw [Nat.add_zero, Nat.mod_eq_of_lt hc]
        · refine List.map_congr_left fun i _ => ?_
          show ((s.counter + 1) % 2 ^ 64 + i) % 2 ^ 64
            = (s.counter + Nat.succ i) % 2 ^ 64
          rw [Nat.mod_add_mod]
          congr 1
          omega
      · show (allocSeq n (Id.next s).2).2.counter = _
        rw [hnext, h2, Nat.mod_add_mod]
        congr 1
        omega
      · show (allocSeq n (Id.next s).2).2.id_paths = _
        rw [hnext, h3]

/-- As long as the requested window stays inside the `u64` space
(`counter + n ≤ 2 ^ 64`), no call wraps before returning, so the values are
exactly `counter, counter + 1, ..., counter + n - 1`. -/
theorem allocSeq_no_wrap (n : Nat) (s : RegState) (hc : s.counter < 2 ^ 64)
    (hn : s.counter + n ≤ 2 ^ 64) :
    (allocSeq n s).1 = List.range' s.counter n := by
  obtain ⟨h1, -, -⟩ := allocSeq_values n s hc
  rw [h1, List.range'_eq_map_range]
  refine List.map_congr_left fun i hi => ?_
  have hilt : i < n := List.mem_range.1 hi
  exact Nat.mod_eq_of_lt (by omega)

theorem pairwise_of_get? {α : Type} {R : α → α → Prop} {l : List α}
    (hp : List.Pairwise R l) {i j : Nat} {a b : α} (hij : i < j)
    (ha : l.get? i = some a) (hb : l.get? j = some b) : R a b := by
  obtain ⟨hi, rfl⟩ := List.get?_eq_some.1 ha
  obtain ⟨hj, rfl⟩ := List.get?_eq_some.1 hb
  exact List.pairwise_iff_get.1 hp ⟨i, hi⟩ ⟨j, hj⟩ hij

/-- Counterexample to C2 as stated: the `u64` counter of `Id::next` wraps
(atomic `fetch_add` wraps on overflow), so `2 ^ 64 + 1` sequential calls
from the initial counter `0` return the value `0` twice — at call index `0`
and at call index `2 ^ 64` — hence the returned identifiers are not pairwise
distinct for every `n`. -/
theorem C2_allocator_counterexample :
    ¬ List.Pairwise (· ≠ ·) (allocSeq (2 ^ 64 + 1) RegState.initial).1 := by
  intro hp
  obtain ⟨hv, -, -⟩ :=
    allocSeq_values (2 ^ 64 + 1) RegState.initial (by norm_num [RegState.initial])
  have h0 : (allocSeq (2 ^ 64 + 1) RegState.initial).1.get? 0 = some 0 := by
    rw [hv, List.get?_eq_getElem?, List.getElem?_map,
      List.getElem?_range (by norm_num)]
    norm_num [RegState.initial]
  have h1 : (allocSeq (2 ^ 64 + 1) RegState.initial).1.get? (2 ^ 64)
      = some 0 := by
    rw [hv, List.get?_eq_getElem?, List.getElem?_map,
      List.getElem?_range (by norm_num)]
    norm_num [RegState.initial]
  exact pairwise_of_get? hp (by norm_num) h0 h1 rfl

/-- C2, amended: the allocator `Id::next` never fails (it is a total
function); as long as the `n`-call window stays inside the `u64` space
(`counter < 2 ^ 64`, true of every stored counter value, and
`counter + n ≤ 2 ^ 64`), `n` sequential calls return `n` values that are
strictly increasing in allocation order — each freshly returned value is
greater than every previously returned one — hence pairwise distinct; and
each call advances the process-wide counter exactly once (wrapping at
`2 ^ 64`). Beyond `2 ^ 64` calls the wrapping counter repeats values. -/
theorem C2_allocator_unique_bounded (n : Nat) (s : RegState)
    (hc : s.counter < 2 ^ 64) (hn : s.counter + n ≤ 2 ^ 64) :
    ((allocSeq n s).1).length = n ∧
      List.Pairwise (· < ·) (allocSeq n s).1 ∧
      List.Pairwise (· ≠ ·) (allocSeq n s).1 ∧
      (allocSeq n s).2.counter = (s.counter + n) % 2 ^ 64 ∧
      (allocSeq n s).2.id_paths = s.id_paths := by
  obtain ⟨-, h2, h3⟩ := allocSeq_values n s hc
  have h1 := allocSeq_no_wrap n s hc hn
  have hlt : List.Pairwise (· < ·) (allocSeq n s).1 := by
    rw [h1]; exact List.pairwise_lt_range' s.counter n
  refine ⟨by simp [h1], hlt, ?_, h2, h3⟩
  exact hlt.imp fun h => Nat.ne_of_lt h

/-- Witness for the amended C2 at a concrete input: three calls from the
initial state return `[0, 1, 2]` — pairwise distinct and increasing — and
leave the counter at `3`. -/
theorem C2_allocator_unique_bounded_witness :
    ((allocSeq 3 RegState.initial).1).length = 3 ∧
      List.Pairwise (· < ·) (allocSeq 3 RegState.initial).1 ∧
      List.Pairwise (· ≠ ·) (allocSeq 3 RegState.initial).1 ∧
      (allocSeq 3 RegState.initial).2.counter =
        (RegState.initial.counter + 3) % 2 ^ 64 ∧
      (allocSeq 3 RegState.initial).2.id_paths = RegState.initial.id_paths :=
  C2_allocator_unique_bounded 3 RegState.initial
    (by norm_num [RegState.initial]) (by norm_num [RegState.initial])

/-- C1: behavior of `Id::new` (derive-child). When `self`'s looked-up path is
absent or empty the returned id is `self` itself; otherwise it is the fresh
counter value, which differs from `self` whenever `self` was previously
allocated (`self < counter`). In both cases the registry afterwards maps the
returned id to `self`'s previous path (empty if none) with the returned id
appended. -/
theorem C1_derive_child (s : RegState) (self : Nat) :
    (((s.id_paths self).getD []).isEmpty = true → (Id.new self s).1 = self) ∧
      (((s.id_paths self).getD []).isEmpty = false →
        (Id.new self s).1 = s.counter) ∧
      (((s.id_paths self).getD []).isEmpty = false → self < s.counter →
        (Id.new self s).1 ≠ self) ∧
      (Id.new self s).2.id_paths (Id.new self s).1 =
        some ((s.id_paths self).getD [] ++ [(Id.new self s).1]) := by
  by_cases h : ((s.id_paths self).getD []).isEmpty = true
  · refine ⟨fun _ => ?_, fun hf => ?_, fun hf => ?_, ?_⟩
    · simp [Id.new, h]
    · rw [h] at hf; cases hf
    · rw [h] at hf; cases hf
    · simp [Id.new, h]
  · have hf : ((s.id_paths self).getD []).isEmpty = false := by
      cases hb : ((s.id_paths self).getD []).isEmpty
      · rfl
      · exact absurd hb h
    refine ⟨fun ht => absurd ht h, fun _ => ?_, fun _ hlt => ?_, ?_⟩
    · simp [Id.new, hf, Id.next]
    · simp [Id.new, hf, Id.next]; omega
    · simp [Id.new, hf, Id.next]

/-- A concrete registry used to instantiate several theorems: id `0` has been
allocated (counter is `1`) and registered with path `[0]`. -/
def regA : RegState :=
  { counter := 1, id_paths := fun k => if k = 0 then some [0] else none }

/-- Witness for C1 at a concrete input: in `regA`, id `0` is registered with
the non-empty path `[0]`, so deriving from `0` allocates the fresh id `1`,
distinct from `0`, and registers it with path `[0, 1]`; while deriving from
the unregistered id `5` returns `5` itself with path `[5]`. -/
theorem C1_derive_child_witness :
    (Id.new 0 regA).1 = 1 ∧ (Id.new 0 regA).1 ≠ 0 ∧
      (Id.new 0 regA).2.id_paths (Id.new 0 regA).1 = some [0, 1] ∧
      (Id.new 5 regA).1 = 5 ∧
      (Id.new 5 regA).2.id_paths (Id.new 5 regA).1 = some [5] := by
  obtain ⟨-, h2, h3, h4⟩ := C1_derive_child regA 0
  obtain ⟨g1, -, -, g4⟩ := C1_derive_child regA 5
  exact ⟨h2 (by decide), h3 (by decide) (by decide), h4, g1 (by decide), g4⟩

theorem get?_append_pair {α : Type} (pre : List α) (a b : α) :
    (pre ++ [a, b]).get? pre.length = some a ∧
      (pre ++ [a, b]).get? (pre.length + 1) = some b := by
  constructor
  · rw [List.get?_eq_getElem?, List.getElem?_append_right (by simp)]
    simp
  · rw [List.get?_eq_getElem?, List.getElem?_append_right (by simp)]
    simp

/-- If an id's registered path has the shape `pre ++ [m, z]` (length at least
two), `Id::parent` returns its second-to-last element `m`. -/
theorem parent_of_shape (s : RegState) (c : Nat) (pre : List Nat) (m z : Nat)
    (h : s.id_paths c = some (pre ++ [m, z])) : Id.parent c s = some m := by
  have hlen : (pre ++ [m, z]).length = pre.length + 2 := by simp
  have hm := (get?_append_pair pre m z).1
  simp only [Id.parent, h, Option.some_bind]
  rw [if_pos (by omega), hlen, Nat.add_sub_cancel]
  exact hm

/-- C4: `Id::set_parent` panics (modeled as `none`) precisely when `parent`
has no entry in the registry; when `parent` is registered with path `P`, it
succeeds and stores `P` with `self` appended as `self`'s path, overwriting
any prior path of `self`, while the counter and every other key are left
unchanged. -/
theorem C4_set_parent_spec (s : RegState) (self par : Nat) :
    (Id.set_parent self par s = none ↔ s.id_paths par = none) ∧
      (∀ P, s.id_paths par = some P →
        ∃ s', Id.set_parent self par s = some s' ∧
          s'.id_paths self = some (P ++ [self]) ∧
          (∀ k, k ≠ self → s'.id_paths k = s.id_paths k) ∧
          s'.counter = s.counter) := by
  constructor
  · cases h : s.id_paths par with
    | none => simp [Id.set_parent, h]
    | some P => simp [Id.set_parent, h]
  · intro P hP
    refine ⟨{ s with id_paths := insertPath s.id_paths self (P ++ [self]) },
      ?_, ?_, ?_, rfl⟩
    · simp [Id.set_parent, hP]
    · simp
    · intro k hk
      exact insertPath_other _ _ _ _ hk

/-- Witness for C4 at a concrete input: in `regA` (where `3` is unregistered
and `0` has path `[0]`), `set_parent 5 3` panics, while `set_parent 5 0`
succeeds, gives `5` the path `[0, 5]`, and leaves key `0` unchanged. -/
theorem C4_set_parent_spec_witness :
    Id.set_parent 5 3 regA = none ∧
      (∃ s', Id.set_parent 5 0 regA = some s' ∧
        s'.id_paths 5 = some [0, 5] ∧ s'.id_paths 0 = regA.id_paths 0) := by
  have h1 := (C4_set_parent_spec regA 5 3).1
  have h2 := (C4_set_parent_spec regA 5 0).2 [0] (by decide)
  obtain ⟨s', hs', hself, hframe, -⟩ := h2
  exact ⟨h1.mpr (by decide), s', hs', hself, hframe 0 (by decide)⟩

/-- C5: the accessors. For an unregistered id both `Id::parent` and
`Id::root_id` return `none`; `Id::parent` returns `none` when the path has
fewer than two elements, and otherwise the second-to-last element of the
path; `Id::root_id` returns the first element of the path. -/
theorem C5_parent_root_id (s : RegState) (c : Nat) :
    (s.id_paths c = none → Id.parent c s = none ∧ Id.root_id c s = none) ∧
      (∀ p, s.id_paths c = some p → p.length < 2 → Id.parent c s = none) ∧
      (∀ pre m z, s.id_paths c = some (pre ++ [m, z]) →
        Id.parent c s = some m) ∧
      (∀ r t, s.id_paths c = some (r :: t) → Id.root_id c s = some r) := by
  refine ⟨fun h => ?_, fun p hp hlen => ?_, fun pre m z h => ?_,
    fun r t h => ?_⟩
  · simp [Id.parent, Id.root_id, h]
  · simp [Id.parent, hp]; omega
  · exact parent_of_shape s c pre m z h
  · simp [Id.root_id, h]

/-- A concrete registry with a three-level chain: `0 ↦ [0]`, `1 ↦ [0, 1]`,
`2 ↦ [0, 1, 2]`, counter `3`. -/
def regB : RegState :=
  { counter := 3,
    id_paths := fun k =>
      if k = 0 then some [0]
      else if k = 1 then some [0, 1]
      else if k = 2 then some [0, 1, 2]
      else none }

/-- Witness for C5 at a concrete input: in `regB` with path `[0, 1, 2]` for
id `2`, `parent 2 = some 1`, `root_id 2 = some 0`, `parent 0 = none` (path
of length one), and the unregistered id `7` has no parent and no root. -/
theorem C5_parent_root_id_witness :
    Id.parent 2 regB = some 1 ∧ Id.root_id 2 regB = some 0 ∧
      Id.parent 0 regB = none ∧ Id.parent 7 regB = none ∧
      Id.root_id 7 regB = none := by
  obtain ⟨-, -, h3, h4⟩ := C5_parent_root_id regB 2
  obtain ⟨-, g2, -, -⟩ := C5_parent_root_id regB 0
  obtain ⟨k1, -, -, -⟩ := C5_parent_root_id regB 7
  exact ⟨h3 [0] 1 2 (by decide), h4 0 [1, 2] (by decide),
    g2 [0] (by decide) (by decide), (k1 (by decide)).1, (k1 (by decide)).2⟩

/-- C6: `Id::remove_id_path` removes exactly the mapping keyed by the given
id and leaves every other key's entry and the counter unchanged (no
cascading removal); afterwards `id_path` returns `none` and `has_id_path`
is `false`. -/
theorem C6_remove_id_path_frame (s : RegState) (c : Nat) :
    (Id.remove_id_path c s).id_paths c = none ∧
      (∀ k, k ≠ c → (Id.remove_id_path c s).id_paths k = s.id_paths k) ∧
      Id.id_path c (Id.remove_id_path c s) = none ∧
      Id.has_id_path c (Id.remove_id_path c s) = false ∧
      (Id.remove_id_path c s).counter = s.counter := by
  refine ⟨by simp [Id.remove_id_path], fun k hk => ?_,
    by simp [Id.id_path, Id.remove_id_path],
    by simp [Id.has_id_path, Id.remove_id_path], rfl⟩
  simp [Id.remove_id_path, hk]

/-- Witness for C6 at a concrete input: removing id `2` from `regB` erases
only key `2`; keys `0` and `1` keep their paths. -/
theorem C6_remove_id_path_frame_witness :
    (Id.remove_id_path 2 regB).id_paths 2 = none ∧
      (Id.remove_id_path 2 regB).id_paths 1 = regB.id_paths 1 ∧
      (Id.remove_id_path 2 regB).id_paths 0 = regB.id_paths 0 ∧
      Id.has_id_path 2 (Id.remove_id_path 2 regB) = false := by
  obtain ⟨h1, h2, -, h4, -⟩ := C6_remove_id_path_frame regB 2
  exact ⟨h1, h2 1 (by decide), h2 0 (by decide), h4⟩

/-- C10: nothing guards against self-parenting. For `S` registered with path
`P` (which, for any state the program produces, ends in `S`),
`set_parent S S` succeeds and stores `P ++ [S]` as `S`'s new path; the
stored path then ends with `S` occurring twice, and `parent S` afterwards
returns `some S`. -/
theorem C10_set_parent_self (s : RegState) (S : Nat) (P : List Nat)
    (hreg : s.id_paths S = some P) (hlast : P.getLast? = some S) :
    ∃ s', Id.set_parent S S s = some s' ∧
      s'.id_paths S = some (P ++ [S]) ∧
      (P ++ [S]).getLast? = some S ∧
      (P ++ [S]).dropLast.getLast? = some S ∧
      Id.parent S s' = some S := by
  refine ⟨{ s with id_paths := insertPath s.id_paths S (P ++ [S]) },
    ?_, ?_, ?_, ?_, ?_⟩
  · simp [Id.set_parent, hreg]
  · simp
  · simp
  · simp [hlast]
  · have hP : P.dropLast ++ [S] = P :=
      List.dropLast_append_getLast? S hlast
    have hshape : P ++ [S] = P.dropLast ++ [S, S] := by
      conv_lhs => rw [← hP]
      simp
    refine parent_of_shape _ S P.dropLast S S ?_
    show insertPath s.id_paths S (P ++ [S]) S = some (P.dropLast ++ [S, S])
    rw [insertPath_same, hshape]

/-- Witness for C10 at a concrete input: in `regB`, id `1` has path `[0, 1]`;
`set_parent 1 1` succeeds and stores `[0, 1, 1]`, after which
`parent 1 = some 1`. -/
theorem C10_set_parent_self_witness :
    ∃ s', Id.set_parent 1 1 regB = some s' ∧
      s'.id_paths 1 = some [0, 1, 1] ∧
      ([0, 1] ++ [1]).getLast? = some 1 ∧
      ([0, 1] ++ [1]).dropLast.getLast? = some 1 ∧
      Id.parent 1 s' = some 1 :=
  C10_set_parent_self regB 1 [0, 1] (by decide) (by decide)

/-- When `self`'s looked-up path is empty (absent key or empty entry),
`Id::new` reuses `self` and registers it with path `[self]`, leaving the
counter untouched. -/
theorem Id.new_of_empty (self : Nat) (s : RegState)
    (h : (s.id_paths self).getD [] = []) :
    Id.new self s =
      (self, { s with id_paths := insertPath s.id_paths self [self] }) := by
  simp [Id.new, h]

/-- When `self` is registered with a non-empty path `p`, `Id::new` allocates
the fresh id `s.counter`, increments the counter (wrapping at `2 ^ 64`), and
registers the fresh id with path `p ++ [s.counter]`. -/
theorem Id.new_of_nonempty (self : Nat) (s : RegState) (p : List Nat)
    (hsp : s.id_paths self = some p) (hne : p ≠ []) :
    Id.new self s =
      (s.counter,
        { counter := (s.counter + 1) % 2 ^ 64,
          id_paths := insertPath s.id_paths s.counter (p ++ [s.counter]) }) := by
  have hf : p.isEmpty = false := by
    cases p with
    | nil => exact absurd rfl hne
    | cons a l => rfl
  simp [Id.new, Id.next, hsp, hf]

theorem mem_of_getLast?_eq {l : List Nat} {a : Nat}
    (h : l.getLast? = some a) : a ∈ l := by
  obtain ⟨hne, rfl⟩ := @List.mem_getLast?_eq_getLast Nat l a h
  exact List.getLast_mem hne

/-- Invariant (1) of the registry: every key appears as the last element of
its own path. -/
def KeyIsLast (s : RegState) : Prop :=
  ∀ k p, s.id_paths k = some p → p.getLast? = some k

/-- Every registered key, and every id occurring in a registered path, has
already been allocated (is below the counter). -/
def IdsBounded (s : RegState) : Prop :=
  ∀ k p, s.id_paths k = some p → k < s.counter ∧ ∀ x ∈ p, x < s.counter

/-- The second-to-last element of every registered path is itself
registered. -/
def PenultRegistered (s : RegState) : Prop :=
  ∀ k p pp, s.id_paths k = some p → p.dropLast.getLast? = some pp →
    ∃ q, s.id_paths pp = some q

/-- Invariant (2) of the registry as claimed: for every registered id `k`
with path `[r, ..., pp, k]`, if `pp` is also registered then `pp`'s path is
exactly the strict prefix `[r, ..., pp]`. -/
def ParentPathCoherent (s : RegState) : Prop :=
  ∀ k p pp q, s.id_paths k = some p → p.dropLast.getLast? = some pp →
    s.id_paths pp = some q → q = p.dropLast

/-- One mutating operation of the registry surface: `Id::next`, `Id::new`,
`Id::set_parent` with a registered parent (the unregistered-parent case
panics and produces no state), or `Id::remove_id_path`. -/
inductive Step : RegState → RegState → Prop where
  | next (s : RegState) : Step s (Id.next s).2
  | new (self : Nat) (s : RegState) : Step s (Id.new self s).2
  | set_parent (self par : Nat) (s s' : RegState) :
      Id.set_parent self par s = some s' → Step s s'
  | remove (self : Nat) (s : RegState) : Step s (Id.remove_id_path self s)

/-- States reachable from the empty registry by any sequence of registry
operations. -/
inductive Reachable : RegState → Prop where
  | init : Reachable RegState.initial
  | step {s t : RegState} : Reachable s → Step s t → Reachable t

/-- States reachable from the empty registry using only allocation and
derive-child, with derive-child invoked only on previously allocated ids
(`self < counter` — every id the program can actually hold came out of the
allocator), and while the allocator has not exhausted the `u64` id space
(`counter + 1 < 2 ^ 64`, so no step wraps the counter). -/
inductive ReachableNew : RegState → Prop where
  | init : ReachableNew RegState.initial
  | next {s : RegState} : ReachableNew s → s.counter + 1 < 2 ^ 64 →
      ReachableNew (Id.next s).2
  | new {s : RegState} (self : Nat) : ReachableNew s → self < s.counter →
      s.counter + 1 < 2 ^ 64 → ReachableNew (Id.new self s).2

theorem keyIsLast_initial : KeyIsLast RegState.initial := by
  intro k p hp
  simp [RegState.initial] at hp

/-- Point insertion of a value ending in its own key preserves `KeyIsLast`,
for any counter value. -/
theorem keyIsLast_insert {s : RegState} (c' k0 : Nat) (v : List Nat)
    (hv : v.getLast? = some k0) (h : KeyIsLast s) :
    KeyIsLast { counter := c', id_paths := insertPath s.id_paths k0 v } := by
  intro k p hp
  replace hp : insertPath s.id_paths k0 v k = some p := hp
  by_cases hk : k = k0
  · subst hk
    rw [insertPath_same] at hp
    injection hp with hp
    subst hp
    exact hv
  · rw [insertPath_other _ _ _ _ hk] at hp
    exact h k p hp

theorem keyIsLast_step {s t : RegState} (hst : Step s t)
    (h : KeyIsLast s) : KeyIsLast t := by
  cases hst with
  | next s => exact fun k p hp => h k p hp
  | new self s =>
      cases hsp : s.id_paths self with
      | none =>
          rw [Id.new_of_empty self s (by rw [hsp]; rfl)]
          exact keyIsLast_insert _ self [self] (by simp) h
      | some q =>
          by_cases hqe : q = []
          · subst hqe
            rw [Id.new_of_empty self s (by rw [hsp]; rfl)]
            exact keyIsLast_insert _ self [self] (by simp) h
          · rw [Id.new_of_nonempty self s q hsp hqe]
            exact keyIsLast_insert _ s.counter (q ++ [s.counter]) (by simp) h
  | set_parent self par s s' hsp =>
      cases hpar : s.id_paths par with
      | none => simp [Id.set_parent, hpar] at hsp
      | some q =>
          simp only [Id.set_parent, hpar, Option.some.injEq] at hsp
          subst hsp
          exact keyIsLast_insert _ self (q ++ [self]) (by simp) h
  | remove self s =>
      intro k p hp
      replace hp : (if k = self then none else s.id_paths k) = some p := hp
      by_cases hk : k = self
      · rw [if_pos hk] at hp
        simp at hp
      · rw [if_neg hk] at hp
        exact h k p hp

theorem reachable_keyIsLast {s : RegState} (h : Reachable s) :
    KeyIsLast s := by
  induction h with
  | init => exact keyIsLast_initial
  | step _ hst ih => exact keyIsLast_step hst ih

/-- C7: in every state reachable from the empty registry by derive-child,
set-parent (with registered parent) and removal, every key of the registry
appears as the last element of its own stored path; in particular every
stored path is non-empty. -/
theorem C7_key_is_last (s : RegState) (h : Reachable s) :
    ∀ k p, s.id_paths k = some p → p.getLast? = some k ∧ p ≠ [] := by
  intro k p hp
  have h1 := reachable_keyIsLast h k p hp
  refine ⟨h1, ?_⟩
  rintro rfl
  simp at h1

/-- A concrete execution trace. `ex1`: one allocator call hands out id `0`.
`ex2`: `Id::new` on `0` reuses it, registering `0 ↦ [0]`. `ex3`: `Id::new`
on `0` allocates `1`, registering `1 ↦ [0, 1]`. `ex4`: `Id::new` on `1`
allocates `2`, registering `2 ↦ [0, 1, 2]`. -/
def ex1 : RegState := (Id.next RegState.initial).2

def ex2 : RegState := (Id.new 0 ex1).2

def ex3 : RegState := (Id.new 0 ex2).2

def ex4 : RegState := (Id.new 1 ex3).2

/-- Continuation of the trace: `ex5` removes id `1`'s entry, and `ex6`
derives from the now-unregistered id `1` again, which reuses `1` and
registers `1 ↦ [1]` while `2` still holds the stale path `[0, 1, 2]`. -/
def ex5 : RegState := Id.remove_id_path 1 ex4

def ex6 : RegState := (Id.new 1 ex5).2

theorem reachable_ex4 : Reachable ex4 :=
  Reachable.step
    (Reachable.step
      (Reachable.step
        (Reachable.step Reachable.init (Step.next _))
        (Step.new 0 _))
      (Step.new 0 _))
    (Step.new 1 _)

theorem reachable_ex6 : Reachable ex6 :=
  Reachable.step (Reachable.step reachable_ex4 (Step.remove 1 _)) (Step.new 1 _)

theorem reachableNew_ex4 : ReachableNew ex4 :=
  ReachableNew.new 1
    (ReachableNew.new 0
      (ReachableNew.new 0
        (ReachableNew.next ReachableNew.init (by norm_num [RegState.initial]))
        (by decide) (by decide))
      (by decide) (by decide))
    (by decide) (by decide)

/-- Witness for C7 at a concrete input: in the reachable state `ex4`, the
entry `2 ↦ [0, 1, 2]` has its key as last element and is non-empty. -/
theorem C7_key_is_last_witness :
    ([0, 1, 2] : List Nat).getLast? = some 2 ∧ ([0, 1, 2] : List Nat) ≠ [] :=
  C7_key_is_last ex4 reachable_ex4 2 [0, 1, 2] (by decide)

/-- Counterexample to C3 as stated: the state `ex6` is reachable from the
empty registry by derive-child and remove operations alone, yet it violates
the claimed prefix invariant — id `2` is registered with path `[0, 1, 2]`
whose second-to-last element `1` is registered, but `1`'s path is `[1]`,
not the strict prefix `[0, 1]`. -/
theorem C3_counterexample :
    Reachable ex6 ∧
      ex6.id_paths 2 = some [0, 1, 2] ∧
      ex6.id_paths 1 = some [1] ∧
      ¬ ParentPathCoherent ex6 := by
  refine ⟨reachable_ex6, by decide, by decide, fun h => ?_⟩
  have hbad := h 2 [0, 1, 2] 1 [1] (by decide) (by decide) (by decide)
  simp at hbad

/-- The conjunction of registry invariants maintained by allocation and
derive-child alone. -/
def DeriveInv (s : RegState) : Prop :=
  KeyIsLast s ∧ IdsBounded s ∧ PenultRegistered s ∧ ParentPathCoherent s

theorem deriveInv_initial : DeriveInv RegState.initial := by
  refine ⟨keyIsLast_initial, ?_, ?_, ?_⟩
  · intro k p hp
    simp [RegState.initial] at hp
  · intro k p pp hp hpen
    simp [RegState.initial] at hp
  · intro k p pp q hp hpen hq
    simp [RegState.initial] at hp

theorem deriveInv_next {s : RegState} (hguard : s.counter + 1 < 2 ^ 64)
    (h : DeriveInv s) : DeriveInv (Id.next s).2 := by
  show DeriveInv { s with counter := (s.counter + 1) % 2 ^ 64 }
  rw [Nat.mod_eq_of_lt hguard]
  obtain ⟨h1, h2, h3, h4⟩ := h
  refine ⟨h1, ?_, h3, h4⟩
  intro k p hp
  obtain ⟨hk, hx⟩ := h2 k p hp
  exact ⟨Nat.lt_succ_of_lt hk, fun x hxm => Nat.lt_succ_of_lt (hx x hxm)⟩

/-- Reuse branch of `Id::new` preserves the derive-only invariants: insert
`self ↦ [self]` for a previously allocated but unregistered `self`. -/
theorem deriveInv_insert_root {s : RegState} (self : Nat)
    (hself : self < s.counter) (hnone : s.id_paths self = none)
    (h : DeriveInv s) :
    DeriveInv { s with id_paths := insertPath s.id_paths self [self] } := by
  obtain ⟨hkl, hbd, hpr, hpc⟩ := h
  refine ⟨keyIsLast_insert _ self [self] (by simp) hkl, ?_, ?_, ?_⟩
  · intro k p hp
    replace hp : insertPath s.id_paths self [self] k = some p := hp
    by_cases hk : k = self
    · subst hk
      rw [insertPath_same] at hp
      injection hp with hp
      subst hp
      refine ⟨hself, ?_⟩
      intro x hx
      simp at hx
      subst hx
      exact hself
    · rw [insertPath_other _ _ _ _ hk] at hp
      exact hbd k p hp
  · intro k p pp hp hpen
    replace hp : insertPath s.id_paths self [self] k = some p := hp
    by_cases hk : k = self
    · subst hk
      rw [insertPath_same] at hp
      injection hp with hp
      subst hp
      simp at hpen
    · rw [insertPath_other _ _ _ _ hk] at hp
      obtain ⟨q, hq⟩ := hpr k p pp hp hpen
      by_cases hpp : pp = self
      · refine ⟨[self], ?_⟩
        show insertPath s.id_paths self [self] pp = some [self]
        rw [hpp, insertPath_same]
      · exact ⟨q, by
          show insertPath s.id_paths self [self] pp = some q
          rw [insertPath_other _ _ _ _ hpp]; exact hq⟩
  · intro k p pp q hp hpen hq
    replace hp : insertPath s.id_paths self [self] k = some p := hp
    replace hq : insertPath s.id_paths self [self] pp = some q := hq
    by_cases hk : k = self
    · subst hk
      rw [insertPath_same] at hp
      injection hp with hp
      subst hp
      simp at hpen
    · rw [insertPath_other _ _ _ _ hk] at hp
      by_cases hpp : pp = self
      · obtain ⟨q0, hq0⟩ := hpr k p pp hp hpen
        rw [hpp, hnone] at hq0
        cases hq0
      · rw [insertPath_other _ _ _ _ hpp] at hq
        exact hpc k p pp q hp hpen hq

/-- Allocate branch of `Id::new` preserves the derive-only invariants:
insert the fresh id `s.counter ↦ p ++ [s.counter]` where `p` is `self`'s
registered path, and advance the counter. -/
theorem deriveInv_insert_child {s : RegState} (self : Nat) (p : List Nat)
    (hself : self < s.counter) (hsp : s.id_paths self = some p)
    (h : DeriveInv s) :
    DeriveInv
      { counter := s.counter + 1,
        id_paths := insertPath s.id_paths s.counter (p ++ [s.counter]) } := by
  obtain ⟨hkl, hbd, hpr, hpc⟩ := h
  have hlast : p.getLast? = some self := hkl self p hsp
  have hmem : ∀ x ∈ p, x < s.counter := (hbd self p hsp).2
  refine ⟨keyIsLast_insert _ s.counter (p ++ [s.counter]) (by simp) hkl,
    ?_, ?_, ?_⟩
  · intro k q hq
    replace hq : insertPath s.id_paths s.counter (p ++ [s.counter]) k
        = some q := hq
    by_cases hk : k = s.counter
    · subst hk
      rw [insertPath_same] at hq
      injection hq with hq
      subst hq
      refine ⟨Nat.lt_succ_self _, ?_⟩
      intro x hx
      rcases List.mem_append.1 hx with hx | hx
      · exact Nat.lt_succ_of_lt (hmem x hx)
      · simp at hx
        subst hx
        exact Nat.lt_succ_self _
    · rw [insertPath_other _ _ _ _ hk] at hq
      obtain ⟨hk1, hk2⟩ := hbd k q hq
      exact ⟨Nat.lt_succ_of_lt hk1, fun x hx => Nat.lt_succ_of_lt (hk2 x hx)⟩
  · intro k q pp hq hpen
    replace hq : insertPath s.id_paths s.counter (p ++ [s.counter]) k
        = some q := hq
    by_cases hk : k = s.counter
    · subst hk
      rw [insertPath_same] at hq
      injection hq with hq
      subst hq
      rw [List.dropLast_concat] at hpen
      rw [hlast] at hpen
      injection hpen with hpen
      subst hpen
      refine ⟨p, ?_⟩
      show insertPath s.id_paths s.counter (p ++ [s.counter]) self = some p
      rw [insertPath_other _ _ _ _ (Nat.ne_of_lt hself)]
      exact hsp
    · rw [insertPath_other _ _ _ _ hk] at hq
      obtain ⟨q0, hq0⟩ := hpr k q pp hq hpen
      by_cases hpp : pp = s.counter
      · exact ⟨p ++ [s.counter], by subst hpp; exact insertPath_same _ _ _⟩
      · exact ⟨q0, by
          show insertPath s.id_paths s.counter (p ++ [s.counter]) pp = some q0
          rw [insertPath_other _ _ _ _ hpp]; exact hq0⟩
  · intro k q pp q2 hq hpen hq2
    replace hq : insertPath s.id_paths s.counter (p ++ [s.counter]) k
        = some q := hq
    replace hq2 : insertPath s.id_paths s.counter (p ++ [s.counter]) pp
        = some q2 := hq2
    by_cases hk : k = s.counter
    · subst hk
      rw [insertPath_same] at hq
      injection hq with hq
      subst hq
      rw [List.dropLast_concat] at hpen ⊢
      rw [hlast] at hpen
      injection hpen with hpen
      subst hpen
      rw [insertPath_other _ _ _ _ (Nat.ne_of_lt hself), hsp] at hq2
      injection hq2 with hq2
      exact hq2.symm
    · rw [insertPath_other _ _ _ _ hk] at hq
      by_cases hpp : pp = s.counter
      · subst hpp
        have hc_mem : s.counter ∈ q.dropLast := mem_of_getLast?_eq hpen
        have : s.counter ∈ q := (List.dropLast_sublist q).mem hc_mem
        exact absurd ((hbd k q hq).2 _ this) (lt_irrefl _)
      · rw [insertPath_other _ _ _ _ hpp] at hq2
        exact hpc k q pp q2 hq hpen hq2

theorem reachableNew_deriveInv {s : RegState} (h : ReachableNew s) :
    DeriveInv s := by
  induction h with
  | init => exact deriveInv_initial
  | next _ hguard ih => exact deriveInv_next hguard ih
  | @new s' self _ hself hguard ih =>
      have hkl := ih.1
      cases hsp : s'.id_paths self with
      | none =>
          rw [Id.new_of_empty self s' (by rw [hsp]; rfl)]
          exact deriveInv_insert_root self hself hsp ih
      | some p =>
          have hne : p ≠ [] := by
            intro hcon
            subst hcon
            have := hkl self [] hsp
            simp at this
          rw [Id.new_of_nonempty self s' p hsp hne, Nat.mod_eq_of_lt hguard]
          exact deriveInv_insert_child self p hself hsp ih

/-- C3, amended: the claimed prefix invariant does hold in every state
reachable from the empty registry using only the allocator and derive-child
on previously allocated identifiers (no `set_parent` and no
`remove_id_path`), while the allocator has not exhausted the `u64` id space
(no step wraps the counter): if `X` is registered with path
`[r, ..., p, X]` and `p` is also registered, then `p`'s path is exactly the
strict prefix `[r, ..., p]`. -/
theorem C3_prefix_invariant_derive_only (s : RegState) (h : ReachableNew s)
    (X : Nat) (path : List Nat) (p : Nat) (q : List Nat)
    (hX : s.id_paths X = some path)
    (hpen : path.dropLast.getLast? = some p)
    (hq : s.id_paths p = some q) : q = path.dropLast :=
  (reachableNew_deriveInv h).2.2.2 X path p q hX hpen hq

/-- Witness for the amended C3 at a concrete input: in the derive-only
reachable state `ex4`, id `2` has path `[0, 1, 2]`, its second-to-last
element `1` is registered, and `1`'s path `[0, 1]` is the strict prefix. -/
theorem C3_prefix_invariant_derive_only_witness :
    ([0, 1] : List Nat) = ([0, 1, 2] : List Nat).dropLast :=
  C3_prefix_invariant_derive_only ex4 reachableNew_ex4 2 [0, 1, 2] 1 [0, 1]
    (by decide) (by decide) (by decide)

/-- The external payload types carried inside update messages (`Box<dyn Any>`
state, styles, callbacks, and so on). The core moves them around opaquely
and never inspects them, so they are parameters of the embedding. The
distinguished constant `layoutFlag` models `ChangeFlags::LAYOUT`. -/
structure Payloads where
  anyState : Type
  style : Type
  stackOffset : Type
  styleClassRef : Type
  styleSelector : Type
  eventListener : Type
  eventCallback : Type
  resizeCallback : Type
  moveCallback : Type
  cleanupCallback : Type
  animation : Type
  menuCallback : Type
  rect : Type
  changeFlags : Type
  layoutFlag : changeFlags

/-- Translation of the `UpdateMessage` enum: one tagged variant per request
operation, carrying the id and the operation's payload. -/
inductive UpdateMessage (π : Payloads) : Type where
  | Focus (id : Nat)
  | Active (id : Nat)
  | Disabled (id : Nat) (is_disabled : Bool)
  | RequestPaint
  | RequestChange (id : Nat) (flags : π.changeFlags)
  | State (id : Nat) (state : π.anyState)
  | Style (id : Nat) (style : π.style) (offset : π.stackOffset)
  | Class (id : Nat) (styleClass : π.styleClassRef)
  | StyleSelector (id : Nat) (style : π.style) (selector : π.styleSelector)
  | KeyboardNavigable (id : Nat)
  | Draggable (id : Nat)
  | EventListener (id : Nat) (listener : π.eventListener)
      (action : π.eventCallback)
  | ResizeListener (id : Nat) (action : π.resizeCallback)
  | MoveListener (id : Nat) (action : π.moveCallback)
  | CleanupListener (id : Nat) (action : π.cleanupCallback)
  | Animation (id : Nat) (animation : π.animation)
  | ClearFocus (id : Nat)
  | ContextMenu (id : Nat) (menu : π.menuCallback)
  | PopoutMenu (id : Nat) (menu : π.menuCallback)
  | ScrollTo (id : Nat) (rect : Option π.rect)
  | Inspect

/-- The full mutable state of `id.rs`: the registry globals together with
the two message queues, `CENTRAL_UPDATE_MESSAGES` (immediate) and
`CENTRAL_DEFERRED_UPDATE_MESSAGES` (deferred). `Vec::push` appends at the
tail of a queue; queues are drained front-first. -/
structure Sys (π : Payloads) where
  reg : RegState
  central_update_messages : List (Nat × UpdateMessage π)
  central_deferred_update_messages : List (Nat × π.anyState)

namespace Id

variable {π : Payloads}

/-- Translation of `Id::add_update_message`: push `(self, msg)` onto the
immediate queue. -/
def add_update_message (self : Nat) (msg : UpdateMessage π) (s : Sys π) :
    Sys π :=
  { s with central_update_messages :=
      s.central_update_messages ++ [(self, msg)] }

/-- Translation of `Id::update_state_deferred`: push `(self, state)` onto
the deferred queue (and only there). -/
def update_state_deferred (self : Nat) (state : π.anyState) (s : Sys π) :
    Sys π :=
  { s with central_deferred_update_messages :=
      s.central_deferred_update_messages ++ [(self, state)] }

def request_focus (self : Nat) (s : Sys π) : Sys π :=
  add_update_message self (.Focus self) s

def request_active (self : Nat) (s : Sys π) : Sys π :=
  add_update_message self (.Active self) s

def update_disabled (self : Nat) (is_disabled : Bool) (s : Sys π) : Sys π :=
  add_update_message self (.Disabled self is_disabled) s

def request_paint (self : Nat) (s : Sys π) : Sys π :=
  add_update_message self .RequestPaint s

def request_layout (self : Nat) (s : Sys π) : Sys π :=
  add_update_message self (.RequestChange self π.layoutFlag) s

def update_state (self : Nat) (state : π.anyState) (s : Sys π) : Sys π :=
  add_update_message self (.State self state) s

def update_style (self : Nat) (style : π.style) (offset : π.stackOffset)
    (s : Sys π) : Sys π :=
  add_update_message self (.Style self style offset) s

def update_class (self : Nat) (styleClass : π.styleClassRef) (s : Sys π) :
    Sys π :=
  add_update_message self (.Class self styleClass) s

def update_style_selector (self : Nat) (style : π.style)
    (selector : π.styleSelector) (s : Sys π) : Sys π :=
  add_update_message self (.StyleSelector self style selector) s

def keyboard_navigatable (self : Nat) (s : Sys π) : Sys π :=
  add_update_message self (.KeyboardNavigable self) s

def draggable (self : Nat) (s : Sys π) : Sys π :=
  add_update_message self (.Draggable self) s

def update_event_listener (self : Nat) (listener : π.eventListener)
    (action : π.eventCallback) (s : Sys π) : Sys π :=
  add_update_message self (.EventListener self listener action) s

def update_resize_listener (self : Nat) (action : π.resizeCallback)
    (s : Sys π) : Sys π :=
  add_update_message self (.ResizeListener self action) s

def update_move_listener (self : Nat) (action : π.moveCallback)
    (s : Sys π) : Sys π :=
  add_update_message self (.MoveListener self action) s

def update_cleanup_listener (self : Nat) (action : π.cleanupCallback)
    (s : Sys π) : Sys π :=
  add_update_message self (.CleanupListener self action) s

def update_animation (self : Nat) (animation : π.animation) (s : Sys π) :
    Sys π :=
  add_update_message self (.Animation self animation) s

def clear_focus (self : Nat) (s : Sys π) : Sys π :=
  add_update_message self (.ClearFocus self) s

def update_context_menu (self : Nat) (menu : π.menuCallback) (s : Sys π) :
    Sys π :=
  add_update_message self (.ContextMenu self menu) s

def update_popout_menu (self : Nat) (menu : π.menuCallback) (s : Sys π) :
    Sys π :=
  add_update_message self (.PopoutMenu self menu) s

def scroll_to (self : Nat) (rect : Option π.rect) (s : Sys π) : Sys π :=
  add_update_message self (.ScrollTo self rect) s

def inspect (self : Nat) (s : Sys π) : Sys π :=
  add_update_message self .Inspect s

end Id

/-- An operation appends exactly the entry to the immediate queue, adds
nothing to the deferred queue, and leaves the entire registry state (counter
and path map) untouched. -/
def PushesImmediate (π : Payloads) (f : Sys π → Sys π)
    (entry : Nat × UpdateMessage π) : Prop :=
  ∀ s, (f s).central_update_messages = s.central_update_messages ++ [entry] ∧
    (f s).central_deferred_update_messages =
      s.central_deferred_update_messages ∧
    (f s).reg = s.reg

/-- An operation appends exactly the entry to the deferred queue, adds
nothing to the immediate queue, and leaves the registry untouched. -/
def PushesDeferredOnly (π : Payloads) (f : Sys π → Sys π)
    (entry : Nat × π.anyState) : Prop :=
  ∀ s, (f s).central_deferred_update_messages =
      s.central_deferred_update_messages ++ [entry] ∧
    (f s).central_update_messages = s.central_update_messages ∧
    (f s).reg = s.reg

/-- C8: every request operation appends exactly one `(id, message)` pair to
the immediate queue and nothing to the deferred queue, except
`update_state_deferred`, which appends its pair only to the deferred queue;
no enqueue operation modifies the path registry or the counter, and none
can fail (each is a total function on states). -/
theorem C8_enqueue_operations (π : Payloads) (self : Nat)
    (is_disabled : Bool) (st st' : π.anyState) (sty sty2 : π.style)
    (off : π.stackOffset) (cls : π.styleClassRef) (sel : π.styleSelector)
    (lis : π.eventListener) (ecb : π.eventCallback)
    (rcb : π.resizeCallback) (mcb : π.moveCallback)
    (ccb : π.cleanupCallback) (anim : π.animation) (menu : π.menuCallback)
    (rect : Option π.rect) :
    PushesImmediate π (Id.request_focus self)
        (self, .Focus self) ∧
      PushesImmediate π (Id.request_active self)
        (self, .Active self) ∧
      PushesImmediate π (Id.update_disabled self is_disabled)
        (self, .Disabled self is_disabled) ∧
      PushesImmediate π (Id.request_paint self)
        (self, .RequestPaint) ∧
      PushesImmediate π (Id.request_layout self)
        (self, .RequestChange self π.layoutFlag) ∧
      PushesImmediate π (Id.update_state self st)
        (self, .State self st) ∧
      PushesImmediate π (Id.update_style self sty off)
        (self, .Style self sty off) ∧
      PushesImmediate π (Id.update_class self cls)
        (self, .Class self cls) ∧
      PushesImmediate π (Id.update_style_selector self sty2 sel)
        (self, .StyleSelector self sty2 sel) ∧
      PushesImmediate π (Id.keyboard_navigatable self)
        (self, .KeyboardNavigable self) ∧
      PushesImmediate π (Id.draggable self)
        (self, .Draggable self) ∧
      PushesImmediate π (Id.update_event_listener self lis ecb)
        (self, .EventListener self lis ecb) ∧
      PushesImmediate π (Id.update_resize_listener self rcb)
        (self, .ResizeListener self rcb) ∧
      PushesImmediate π (Id.update_move_listener self mcb)
        (self, .MoveListener self mcb) ∧
      PushesImmediate π (Id.update_cleanup_listener self ccb)
        (self, .CleanupListener self ccb) ∧
      PushesImmediate π (Id.update_animation self anim)
        (self, .Animation self anim) ∧
      PushesImmediate π (Id.clear_focus self)
        (self, .ClearFocus self) ∧
      PushesImmediate π (Id.update_context_menu self menu)
        (self, .ContextMenu self menu) ∧
      PushesImmediate π (Id.update_popout_menu self menu)
        (self, .PopoutMenu self menu) ∧
      PushesImmediate π (Id.scroll_to self rect)
        (self, .ScrollTo self rect) ∧
      PushesImmediate π (Id.inspect self)
        (self, .Inspect) ∧
      PushesDeferredOnly π (Id.update_state_deferred self st')
        (self, st') :=
  ⟨fun _ => ⟨rfl, rfl, rfl⟩, fun _ => ⟨rfl, rfl, rfl⟩,
    fun _ => ⟨rfl, rfl, rfl⟩, fun _ => ⟨rfl, rfl, rfl⟩,
    fun _ => ⟨rfl, rfl, rfl⟩, fun _ => ⟨rfl, rfl, rfl⟩,
    fun _ => ⟨rfl, rfl, rfl⟩, fun _ => ⟨rfl, rfl, rfl⟩,
    fun _ => ⟨rfl, rfl, rfl⟩, fun _ => ⟨rfl, rfl, rfl⟩,
    fun _ => ⟨rfl, rfl, rfl⟩, fun _ => ⟨rfl, rfl, rfl⟩,
    fun _ => ⟨rfl, rfl, rfl⟩, fun _ => ⟨rfl, rfl, rfl⟩,
    fun _ => ⟨rfl, rfl, rfl⟩, fun _ => ⟨rfl, rfl, rfl⟩,
    fun _ => ⟨rfl, rfl, rfl⟩, fun _ => ⟨rfl, rfl, rfl⟩,
    fun _ => ⟨rfl, rfl, rfl⟩, fun _ => ⟨rfl, rfl, rfl⟩,
    fun _ => ⟨rfl, rfl, rfl⟩, fun _ => ⟨rfl, rfl, rfl⟩⟩

/-- A trivial instantiation of the opaque payload types, used to evaluate
the mailbox operations on concrete inputs. -/
def unitPayloads : Payloads where
  anyState := Unit
  style := Unit
  stackOffset := Unit
  styleClassRef := Unit
  styleSelector := Unit
  eventListener := Unit
  eventCallback := Unit
  resizeCallback := Unit
  moveCallback := Unit
  cleanupCallback := Unit
  animation := Unit
  menuCallback := Unit
  rect := Unit
  changeFlags := Unit
  layoutFlag := ()

/-- A concrete system state with empty queues over the trivial payloads. -/
def sys0 : Sys unitPayloads :=
  { reg := RegState.initial,
    central_update_messages := [],
    central_deferred_update_messages := [] }

/-- Witness for C8 at a concrete input: on `sys0`, `request_focus 7` puts
exactly `(7, Focus 7)` in the immediate queue and leaves the deferred queue
and the registry untouched, while `update_state_deferred 7 ()` puts
`(7, ())` in the deferred queue only. -/
theorem C8_enqueue_operations_witness :
    (Id.request_focus 7 sys0).central_update_messages =
        [(7, UpdateMessage.Focus 7)] ∧
      (Id.request_focus 7 sys0).central_deferred_update_messages = [] ∧
      (Id.request_focus 7 sys0).reg = sys0.reg ∧
      (Id.update_state_deferred 7 () sys0).central_update_messages = [] ∧
      (Id.update_state_deferred 7 ()
          sys0).central_deferred_update_messages = [(7, ())] ∧
      (Id.update_state_deferred 7 () sys0).reg = sys0.reg := by
  obtain ⟨h1, -, -, -, -, -, -, -, -, -, -, -, -, -, -, -, -, -, -, -, -,
    h22⟩ :=
    C8_enqueue_operations unitPayloads 7 true () () () () () () () () () ()
      () () () () (some ())
  obtain ⟨a1, a2, a3⟩ := h1 sys0
  obtain ⟨b1, b2, b3⟩ := h22 sys0
  exact ⟨a1, a2, a3, b2, b1, b3⟩

/-- C9: enqueues are FIFO and append-only. Enqueuing `(X, m1)` then
`(X, m2)` yields the old immediate queue with `(X, m1)` followed by
`(X, m2)` at the tail, so `m1` occurs at a strictly earlier index than
`m2`; and each single enqueue — immediate or deferred — appends exactly one
pair at the tail of its queue, leaving all previously queued pairs of both
queues unchanged and in order. -/
theorem C9_fifo_append_only (π : Payloads) (s : Sys π) (X : Nat)
    (m1 m2 : UpdateMessage π) :
    (Id.add_update_message X m2
        (Id.add_update_message X m1 s)).central_update_messages =
      s.central_update_messages ++ [(X, m1), (X, m2)] ∧
      (∃ i j, i < j ∧
        (Id.add_update_message X m2
            (Id.add_update_message X m1 s)).central_update_messages.get? i =
          some (X, m1) ∧
        (Id.add_update_message X m2
            (Id.add_update_message X m1 s)).central_update_messages.get? j =
          some (X, m2)) ∧
      (∀ (x : Nat) (m : UpdateMessage π) (t : Sys π),
        (Id.add_update_message x m t).central_update_messages =
            t.central_update_messages ++ [(x, m)] ∧
          (Id.add_update_message x m t).central_deferred_update_messages =
            t.central_deferred_update_messages) ∧
      (∀ (x : Nat) (a : π.anyState) (t : Sys π),
        (Id.update_state_deferred x a t).central_deferred_update_messages =
            t.central_deferred_update_messages ++ [(x, a)] ∧
          (Id.update_state_deferred x a t).central_update_messages =
            t.central_update_messages) := by
  have hl : (Id.add_update_message X m2
      (Id.add_update_message X m1 s)).central_update_messages =
      s.central_update_messages ++ [(X, m1), (X, m2)] := by
    simp [Id.add_update_message]
  refine ⟨hl, ?_, fun x m t => ⟨rfl, rfl⟩, fun x a t => ⟨rfl, rfl⟩⟩
  obtain ⟨h1, h2⟩ := get?_append_pair s.central_update_messages (X, m1) (X, m2)
  exact ⟨s.central_update_messages.length,
    s.central_update_messages.length + 1, Nat.lt_succ_self _,
    by rw [hl]; exact h1, by rw [hl]; exact h2⟩

/-- Witness for C9 at a concrete input: enqueuing `(7, RequestPaint)` then
`(7, Inspect)` on the empty queue yields that two-element queue, with
`RequestPaint` at index `0` and `Inspect` at index `1`. -/
theorem C9_fifo_append_only_witness :
    (Id.add_update_message 7 UpdateMessage.Inspect
        (Id.add_update_message 7 UpdateMessage.RequestPaint
          sys0)).central_update_messages =
      [(7, UpdateMessage.RequestPaint), (7, UpdateMessage.Inspect)] ∧
      (0 : Nat) < 1 := by
  obtain ⟨h1, -, -, -⟩ :=
    C9_fifo_append_only unitPayloads sys0 7 UpdateMessage.RequestPaint
      UpdateMessage.Inspect
  exact ⟨h1, Nat.zero_lt_one⟩

end Floem
